import Mathlib

/-!
Verification of the semantic-search subsystem of the `synapse` backend
(`backend/api/services/rag_service.py`), as a shallow embedding.

Numeric scores are modelled by `ℚ`.  External collaborators (the embedding
provider, the Chroma vector store, the sklearn clusterer) are parameters of
the embedded pipeline functions; everything the repository's own code does
(deduplication, distance-to-similarity conversion, threshold filtering,
truncation, trivial-message filtering, cluster-count computation,
representative selection) is translated directly.
-/

namespace Synapse

/-- A chat message, after `models/schemas.py` `Message`; only the fields the
RAG pipeline reads.  `created_at` is an abstract timestamp. -/
structure Message where
  id : String
  text : String
  sender_id : String
  sender_name : Option String
  created_at : Nat
  conversation_id : String
deriving DecidableEq

/-- One entry of the list built in `semantic_search_with_rag`, lines 148-152:
`{"message_id": ..., "relevance_score": ...}` (the `explanation` string is a
pure formatting of `relevance_score` and is not modelled). -/
structure ScoredResult where
  message_id : String
  relevance_score : ℚ
deriving DecidableEq

/-! ### Step 1: deduplication before indexing (lines 55-78) -/

/-- The loop of lines 60-78: walk the message list carrying the `seen_ids`
set, skip a message whose id was already seen, otherwise keep it and add its
id to the set. -/
def dedupAux (seen : Finset String) : List Message → List Message
  | [] => []
  | m :: ms =>
    if m.id ∈ seen then dedupAux seen ms
    else m :: dedupAux (insert m.id seen) ms

/-- Lines 56-78 with `seen_ids = set()` initially: the document list handed to
the vector store, one document per first occurrence of each message id. -/
def dedupMessages (messages : List Message) : List Message :=
  dedupAux ∅ messages

/-! ### Distance-to-similarity conversion (lines 112 and 138) -/

/-- `similarity_score = float(1 - (distance_score / 2))` (lines 112, 138). -/
def similarityScore (distance : ℚ) : ℚ :=
  1 - distance / 2

/-! ### Step 5: threshold filter with second deduplication pass (lines 130-155) -/

/-- The second-pass loop of lines 136-155: carry `seen_message_ids`; a hit
whose id was seen is skipped; a hit whose similarity reaches the threshold is
appended and its id recorded; a hit below the threshold is dropped without
recording its id.  A raw hit is a `(message_id, distance)` pair. -/
def filterAux (seen : Finset String) (minSim : ℚ) : List (String × ℚ) → List ScoredResult
  | [] => []
  | (mid, d) :: rest =>
    if mid ∈ seen then filterAux seen minSim rest
    else if minSim ≤ similarityScore d then
      ⟨mid, similarityScore d⟩ :: filterAux (insert mid seen) minSim rest
    else
      filterAux seen minSim rest

/-- Lines 130-158: filter the raw hits starting from an empty seen-set, then
`formatted_results[:max_results]`. -/
def formattedResults (results : List (String × ℚ)) (minSim : ℚ) (maxResults : Nat) :
    List ScoredResult :=
  (filterAux ∅ minSim results).take maxResults

/-- A vector store, abstracting Chroma: given the indexed documents, a query
string and `k`, `similarity_search_with_score` returns a list of
`(message_id, cosine_distance)` hits. -/
def Store : Type :=
  List Message → String → Nat → List (String × ℚ)

/-- `semantic_search_with_rag` (lines 23-166): deduplicate the messages, index
them, query the store with `k = max_results * 2` (line 96), convert distances
to similarities, filter by the threshold with a second deduplication pass, and
truncate to `max_results` (line 158). -/
def semantic_search_with_rag (store : Store) (query : String) (messages : List Message)
    (max_results : Nat) (min_similarity_threshold : ℚ) : List ScoredResult :=
  formattedResults (store (dedupMessages messages) query (max_results * 2))
    min_similarity_threshold max_results

/-- The default of the `min_similarity_threshold` parameter in the signature
of `semantic_search_with_rag` (line 27): `0.7`. -/
def min_similarity_threshold_default : ℚ :=
  7 / 10

/-- `semantic_search_with_rag` invoked without an explicit similarity
threshold, so the signature default applies. -/
def semanticSearchDefault (store : Store) (query : String) (messages : List Message)
    (max_results : Nat) : List ScoredResult :=
  semantic_search_with_rag store query messages max_results min_similarity_threshold_default

/-! ### `filter_redundant_messages` (lines 261-379) -/

/-- Python's `text.strip().lower()` (line 302), modelled on the character
list: drop whitespace from both ends, then lowercase each character. -/
def normalizeText (s : String) : String :=
  String.mk
    (((s.toList.dropWhile Char.isWhitespace).reverse.dropWhile Char.isWhitespace).reverse.map
      Char.toLower)

/-- The trivial-message test of lines 302-304: `text = msg.text.strip().lower()`,
then `len(text) < 10 or text in ['ok', 'yes', 'no', 'sure', 'agree', 'thanks', '👍', '✅']`. -/
def isTrivial (msg : Message) : Bool :=
  let text := normalizeText msg.text
  decide (text.length < 10) ||
    decide (text ∈ (["ok", "yes", "no", "sure", "agree", "thanks", "👍", "✅"] : List String))

/-- Line 335: `n_clusters = max(target_count, int(len(non_trivial) * 0.5))`.
Python's `int` truncates, so for the sizes at hand this is
`max(target_count, ⌊remaining / 2⌋)`. -/
def nClustersRequested (remaining target_count : Nat) : Nat :=
  max target_count (remaining / 2)

/-- Modelled from the spec: the cluster-count formula as the spec words it,
`n_clusters = max(target_count, round(0.5 * remaining_count))`, which rounds
`remaining/2` instead of truncating it.  For odd `remaining` this rounds the
half up; at the inputs used below (`remaining = 51`, so `25.5`) Python's
round-half-to-even convention produces the same value, `26`. -/
def nClustersClaimed (remaining target_count : Nat) : Nat :=
  max target_count ((remaining + 1) / 2)

/-- Elementwise mean of a list of vectors: `cluster_embeddings.mean(axis=0)`
(line 358). -/
def centroid (vecs : List (List ℚ)) : List ℚ :=
  match vecs with
  | [] => []
  | v :: _ => (List.range v.length).map fun i =>
      (vecs.map fun w => w.getD i 0).sum / (vecs.length : ℚ)

/-- Squared Euclidean distance between two vectors.  Line 362 computes
`np.linalg.norm(e - c)`, the square root of this; since the square root is
strictly monotone, the argmin taken at line 365 over the norms equals the
argmin over these squares, so the squared form is used to stay in `ℚ`. -/
def sqDist (a b : List ℚ) : ℚ :=
  (a.zipWith (fun x y => (x - y) ^ 2) b).sum

/-- `np.argmin` (line 365): index of the first occurrence of the minimum. -/
def argminIdx : List ℚ → Nat
  | [] => 0
  | [_] => 0
  | x :: y :: rest =>
    if (y :: rest).getD (argminIdx (y :: rest)) 0 < x then argminIdx (y :: rest) + 1 else 0

/-- Lines 344-371, the representative-selection loop: for each
`cluster_id in range(n_clusters)`, collect the indices whose label equals
`cluster_id` (`np.where(cluster_labels == cluster_id)[0]`, modelled as the
increasing list of positions `i < labels.length` with `labels[i] = cluster_id`),
skip empty clusters, select the member closest to the cluster centroid, and
finally sort the representatives by `created_at` (line 371).  An out-of-range
index (impossible when `labels` carries one label per item, as the external
clusterer guarantees) is modelled as skipping the cluster. -/
def clusterStep (embs : List (List ℚ)) (labels : List Nat) (n_clusters : Nat)
    (items : List Message) : List Message :=
  let reps := (List.range n_clusters).filterMap fun cid =>
    let idxs := (List.range labels.length).filter fun i => labels.getD i 0 == cid
    if idxs.isEmpty then none
    else
      let c := centroid (idxs.map fun i => embs.getD i [])
      let dists := idxs.map fun i => sqDist (embs.getD i []) c
      items.get? (idxs.getD (argminIdx dists) 0)
  reps.mergeSort fun a b => decide (a.created_at ≤ b.created_at)

/-- `filter_redundant_messages` (lines 261-379).  The embedding provider
(`embeddings.aembed_documents`, line 319) and the sklearn
`AgglomerativeClustering.fit_predict` call (lines 337-342, applied to the
distance matrix derived from the embeddings) are external collaborators and
appear as the parameters `embed` and `fit_predict`.  The `similarity_threshold`
parameter of the source (line 264) is never read by the body and is omitted.
Control flow: return the input unchanged when it is already at or below
`target_count` (lines 292-294); otherwise drop trivial messages (lines
298-307); return the residue if it is at or below `target_count` (lines
312-314); otherwise embed, cluster into `n_clusters` groups and keep one
representative per non-empty cluster (lines 316-371). -/
def filter_redundant_messages (embed : List String → List (List ℚ))
    (fit_predict : List (List ℚ) → Nat → List Nat)
    (messages : List Message) (target_count : Nat) : List Message :=
  if messages.length ≤ target_count then messages
  else
    let non_trivial := messages.filter fun m => !(isTrivial m)
    if non_trivial.length ≤ target_count then non_trivial
    else
      let embs := embed (non_trivial.map Message.text)
      let n_clusters := nClustersRequested non_trivial.length target_count
      let labels := fit_predict embs n_clusters
      clusterStep embs labels n_clusters non_trivial

/-! ### Lemmas about the indexing deduplication (lines 55-78) -/

theorem dedupAux_sublist (seen : Finset String) (msgs : List Message) :
    (dedupAux seen msgs).Sublist msgs := by
  induction msgs generalizing seen with
  | nil => simp [dedupAux]
  | cons m ms ih =>
    simp only [dedupAux]
    split
    · exact (ih seen).trans (List.sublist_cons_self m ms)
    · exact (ih (insert m.id seen)).cons₂ m

theorem id_not_seen_of_mem_dedupAux {seen : Finset String} {msgs : List Message} {m : Message}
    (h : m ∈ dedupAux seen msgs) : m.id ∉ seen := by
  induction msgs generalizing seen with
  | nil => simp [dedupAux] at h
  | cons x ms ih =>
    simp only [dedupAux] at h
    split at h
    · exact ih h
    · rcases List.mem_cons.1 h with rfl | h
      · assumption
      · intro hmem
        exact ih h (Finset.mem_insert_of_mem hmem)

theorem dedupAux_ids_nodup (seen : Finset String) (msgs : List Message) :
    ((dedupAux seen msgs).map Message.id).Nodup := by
  induction msgs generalizing seen with
  | nil => simp [dedupAux]
  | cons x ms ih =>
    simp only [dedupAux]
    split
    · exact ih seen
    · simp only [List.map_cons, List.nodup_cons]
      refine ⟨fun hmem => ?_, ih (insert x.id seen)⟩
      rcases List.mem_map.1 hmem with ⟨y, hy, hid⟩
      exact id_not_seen_of_mem_dedupAux hy (hid ▸ Finset.mem_insert_self x.id seen)

theorem mem_ids_dedupAux {msgs : List Message} {a : String} (seen : Finset String)
    (h1 : a ∈ msgs.map Message.id) (h2 : a ∉ seen) :
    a ∈ (dedupAux seen msgs).map Message.id := by
  induction msgs generalizing seen with
  | nil => simp at h1
  | cons x ms ih =>
    simp only [List.map_cons, List.mem_cons] at h1
    simp only [dedupAux]
    split
    · rcases h1 with h1 | h1
      · exact absurd (h1 ▸ ‹x.id ∈ seen›) h2
      · exact ih seen h1 h2
    · rcases h1 with h1 | h1
      · subst h1; simp
      · by_cases hax : a = x.id
        · subst hax; simp
        · have hnot : a ∉ insert x.id seen := by
            simp only [Finset.mem_insert]
            exact fun hor => hor.elim hax h2
          simp only [List.map_cons, List.mem_cons]
          exact Or.inr (ih (insert x.id seen) h1 hnot)

theorem first_occ_of_mem_dedupAux {seen : Finset String} {msgs : List Message}
    {m : Message} (h : m ∈ dedupAux seen msgs) :
    ∃ l1 l2, msgs = l1 ++ m :: l2 ∧ m.id ∉ l1.map Message.id := by
  induction msgs generalizing seen with
  | nil => simp [dedupAux] at h
  | cons x ms ih =>
    simp only [dedupAux] at h
    split at h
    · rcases ih h with ⟨l1, l2, heq, hnot⟩
      have hm := id_not_seen_of_mem_dedupAux h
      refine ⟨x :: l1, l2, by rw [heq]; rfl, ?_⟩
      simp only [List.map_cons, List.mem_cons]
      push_neg
      exact ⟨fun e => hm (e ▸ ‹x.id ∈ seen›), hnot⟩
    · rcases List.mem_cons.1 h with rfl | h
      · exact ⟨[], ms, rfl, by simp⟩
      · rcases ih h with ⟨l1, l2, heq, hnot⟩
        have hm := id_not_seen_of_mem_dedupAux h
        refine ⟨x :: l1, l2, by rw [heq]; rfl, ?_⟩
        simp only [List.map_cons, List.mem_cons]
        push_neg
        exact ⟨fun e => hm (e ▸ Finset.mem_insert_self x.id seen), hnot⟩

/-- Claim C1: for every input message list, possibly containing duplicate ids,
the pre-indexing deduplication keeps each id exactly once (each id of the
input appears exactly once in the output), keeps for each id its first
occurrence, preserves the original relative order of the kept items (the
output is a sublist of the input), and maps the empty input to the empty
output. -/
theorem dedup_each_id_once_first_occurrence_in_order (messages : List Message) :
    ((dedupMessages messages).map Message.id).Nodup ∧
    (∀ a ∈ messages.map Message.id,
      ((dedupMessages messages).map Message.id).count a = 1) ∧
    (dedupMessages messages).Sublist messages ∧
    (∀ m ∈ dedupMessages messages,
      ∃ l1 l2, messages = l1 ++ m :: l2 ∧ m.id ∉ l1.map Message.id) ∧
    dedupMessages [] = [] := by
  refine ⟨dedupAux_ids_nodup ∅ messages, fun a ha => ?_, dedupAux_sublist ∅ messages,
    fun m hm => first_occ_of_mem_dedupAux hm, rfl⟩
  exact List.count_eq_one_of_mem (dedupAux_ids_nodup ∅ messages)
    (mem_ids_dedupAux ∅ ha (Finset.not_mem_empty a))

/-- Claim C1, witness: on a concrete list whose first two messages share the
id `"a"`, the id `"a"` is kept exactly once, and the kept document is the
first occurrence. -/
theorem dedup_each_id_once_first_occurrence_in_order_witness :
    ((dedupMessages [⟨"a", "x", "s", none, 0, "c"⟩, ⟨"a", "y", "s", none, 1, "c"⟩,
        ⟨"b", "z", "s", none, 2, "c"⟩]).map Message.id).count "a" = 1 ∧
    (dedupMessages [⟨"a", "x", "s", none, 0, "c"⟩, ⟨"a", "y", "s", none, 1, "c"⟩,
        ⟨"b", "z", "s", none, 2, "c"⟩]).Sublist
      [⟨"a", "x", "s", none, 0, "c"⟩, ⟨"a", "y", "s", none, 1, "c"⟩,
        ⟨"b", "z", "s", none, 2, "c"⟩] :=
  ⟨(dedup_each_id_once_first_occurrence_in_order _).2.1 "a" (by decide),
   (dedup_each_id_once_first_occurrence_in_order _).2.2.1⟩

/-! ### Lemmas about the distance-to-similarity conversion -/

theorem similarityScore_antitone {d d' : ℚ} (h : d ≤ d') :
    similarityScore d' ≤ similarityScore d := by
  simp only [similarityScore]
  linarith

/-- Claim C2: the ranker's conversion is `similarity = 1 - distance/2`; for
every distance in `[0,2]` the resulting similarity lies in `[0,1]`, and the
conversion is strictly decreasing, so a smaller distance always maps to a
larger similarity. -/
theorem similarity_conversion_bounds_and_decreasing (d : ℚ) (h0 : 0 ≤ d) (h2 : d ≤ 2) :
    similarityScore d = 1 - d / 2 ∧
    0 ≤ similarityScore d ∧ similarityScore d ≤ 1 ∧
    ∀ d', d < d' → similarityScore d' < similarityScore d := by
  refine ⟨rfl, ?_, ?_, fun d' hd => ?_⟩ <;> simp only [similarityScore] <;> linarith

/-- Claim C2, witness: at distance `1` the similarity is in `[0,1]`, and the
larger distance `2` yields a strictly smaller similarity. -/
theorem similarity_conversion_bounds_and_decreasing_witness :
    0 ≤ similarityScore 1 ∧ similarityScore 1 ≤ 1 ∧
    similarityScore 2 < similarityScore 1 :=
  ⟨(similarity_conversion_bounds_and_decreasing 1 (by norm_num) (by norm_num)).2.1,
   (similarity_conversion_bounds_and_decreasing 1 (by norm_num) (by norm_num)).2.2.1,
   (similarity_conversion_bounds_and_decreasing 1 (by norm_num) (by norm_num)).2.2.2 2
     (by norm_num)⟩

/-! ### Lemmas about the threshold filter (lines 130-158) -/

theorem le_score_of_mem_filterAux {seen : Finset String} {minSim : ℚ}
    {results : List (String × ℚ)} {r : ScoredResult} (h : r ∈ filterAux seen minSim results) :
    minSim ≤ r.relevance_score := by
  induction results generalizing seen with
  | nil => simp [filterAux] at h
  | cons p rest ih =>
    simp only [filterAux] at h
    split at h
    · exact ih h
    · split at h
      · rcases List.mem_cons.1 h with rfl | h
        · assumption
        · exact ih h
      · exact ih h

theorem exists_source_of_mem_filterAux {seen : Finset String} {minSim : ℚ}
    {results : List (String × ℚ)} {r : ScoredResult} (h : r ∈ filterAux seen minSim results) :
    ∃ p ∈ results, r = ⟨p.1, similarityScore p.2⟩ := by
  induction results generalizing seen with
  | nil => simp [filterAux] at h
  | cons p rest ih =>
    simp only [filterAux] at h
    split at h
    · rcases ih h with ⟨q, hq, hr⟩
      exact ⟨q, List.mem_cons_of_mem p hq, hr⟩
    · split at h
      · rcases List.mem_cons.1 h with rfl | h
        · exact ⟨p, List.mem_cons_self p rest, rfl⟩
        · rcases ih h with ⟨q, hq, hr⟩
          exact ⟨q, List.mem_cons_of_mem p hq, hr⟩
      · rcases ih h with ⟨q, hq, hr⟩
        exact ⟨q, List.mem_cons_of_mem p hq, hr⟩

theorem id_not_seen_of_mem_filterAux {seen : Finset String} {minSim : ℚ}
    {results : List (String × ℚ)} {r : ScoredResult} (h : r ∈ filterAux seen minSim results) :
    r.message_id ∉ seen := by
  induction results generalizing seen with
  | nil => simp [filterAux] at h
  | cons p rest ih =>
    simp only [filterAux] at h
    split at h
    · exact ih h
    · split at h
      · rcases List.mem_cons.1 h with rfl | h
        · assumption
        · intro hmem
          exact ih h (Finset.mem_insert_of_mem hmem)
      · exact ih h

theorem filterAux_ids_nodup (seen : Finset String) (minSim : ℚ)
    (results : List (String × ℚ)) :
    ((filterAux seen minSim results).map ScoredResult.message_id).Nodup := by
  induction results generalizing seen with
  | nil => simp [filterAux]
  | cons p rest ih =>
    simp only [filterAux]
    split
    · exact ih seen
    · split
      · simp only [List.map_cons, List.nodup_cons]
        refine ⟨fun hmem => ?_, ih (insert p.1 seen)⟩
        rcases List.mem_map.1 hmem with ⟨y, hy, hid⟩
        exact id_not_seen_of_mem_filterAux hy (hid ▸ Finset.mem_insert_self p.1 seen)
      · exact ih seen

theorem filterAux_length_le_insert (a : String) (minSim : ℚ) (results : List (String × ℚ)) :
    ∀ seen : Finset String,
      (filterAux seen minSim results).length ≤
        (filterAux (insert a seen) minSim results).length + 1 := by
  induction results with
  | nil => intro seen; simp [filterAux]
  | cons p rest ih =>
    intro seen
    by_cases hpa : p.1 = a
    · subst hpa
      simp only [filterAux, Finset.mem_insert_self, if_true]
      by_cases hseen : p.1 ∈ seen
      · simp only [hseen, if_true]
        exact ih seen
      · simp only [hseen, if_false]
        split
        · simp
        · exact ih seen
    · simp only [filterAux]
      by_cases hseen : p.1 ∈ seen
      · have : p.1 ∈ insert a seen := Finset.mem_insert_of_mem hseen
        simp only [hseen, this, if_true]
        exact ih seen
      · have hnot : p.1 ∉ insert a seen := by
          simp only [Finset.mem_insert]
          exact fun hor => hor.elim hpa hseen
        simp only [hseen, hnot, if_false]
        split
        · rw [Finset.Insert.comm]
          simpa using Nat.succ_le_succ (ih (insert p.1 seen))
        · exact ih seen

theorem filterAux_length_antitone {minSim minSim' : ℚ} (h : minSim ≤ minSim')
    (results : List (String × ℚ)) :
    ∀ seen : Finset String,
      (filterAux seen minSim' results).length ≤ (filterAux seen minSim results).length := by
  induction results with
  | nil => intro seen; simp [filterAux]
  | cons p rest ih =>
    intro seen
    simp only [filterAux]
    by_cases hseen : p.1 ∈ seen
    · simp only [hseen, if_true]
      exact ih seen
    · simp only [hseen, if_false]
      by_cases hpass' : minSim' ≤ similarityScore p.2
      · have hpass : minSim ≤ similarityScore p.2 := le_trans h hpass'
        simp only [hpass', hpass, if_true, List.length_cons]
        exact Nat.succ_le_succ (ih (insert p.1 seen))
      · simp only [hpass', if_false]
        by_cases hpass : minSim ≤ similarityScore p.2
        · simp only [hpass, if_true, List.length_cons]
          exact le_trans (ih seen)
            (le_trans (filterAux_length_le_insert p.1 minSim rest seen) (Nat.le_refl _))
        · simp only [hpass, if_false]
          exact ih seen

/-- Claim C3: every result returned by the threshold-filtering step has
`similarity ≥ min_similarity`, and for the same raw `(id, distance)` input,
raising the threshold never increases the number of results returned. -/
theorem threshold_filter_sound_and_count_antitone (results : List (String × ℚ))
    (minSim minSim' : ℚ) (maxResults : Nat) (h : minSim ≤ minSim') :
    (∀ r ∈ formattedResults results minSim maxResults, minSim ≤ r.relevance_score) ∧
    (formattedResults results minSim' maxResults).length ≤
      (formattedResults results minSim maxResults).length := by
  constructor
  · intro r hr
    exact le_score_of_mem_filterAux ((List.take_sublist _ _).subset hr)
  · simp only [formattedResults, List.length_take]
    exact min_le_min (Nat.le_refl maxResults) (filterAux_length_antitone h results ∅)

/-- Claim C3, witness: on the raw hits `[("a",0), ("b",1), ("c",2)]` the
result kept at threshold `1/4` has score at least `1/4`, and raising the
threshold to `3/4` does not increase the count. -/
theorem threshold_filter_sound_and_count_antitone_witness :
    (1 / 4 : ℚ) ≤ (⟨"a", 1⟩ : ScoredResult).relevance_score ∧
    (formattedResults [("a", 0), ("b", 1), ("c", 2)] (3 / 4) 10).length ≤
      (formattedResults [("a", 0), ("b", 1), ("c", 2)] (1 / 4) 10).length :=
  ⟨(threshold_filter_sound_and_count_antitone [("a", 0), ("b", 1), ("c", 2)] (1 / 4) (3 / 4) 10
      (by norm_num)).1 ⟨"a", 1⟩
      (by norm_num [formattedResults, filterAux, similarityScore]),
   (threshold_filter_sound_and_count_antitone [("a", 0), ("b", 1), ("c", 2)] (1 / 4) (3 / 4) 10
      (by norm_num)).2⟩

/-- Claim C5: the search returns at most `max_results` results, and when the
candidates passing the similarity threshold number at most `max_results`,
exactly those passing candidates are returned — no padding is added. -/
theorem truncation_cap_and_no_padding (results : List (String × ℚ)) (minSim : ℚ)
    (maxResults : Nat) :
    (formattedResults results minSim maxResults).length ≤ maxResults ∧
    ((filterAux ∅ minSim results).length ≤ maxResults →
      formattedResults results minSim maxResults = filterAux ∅ minSim results) := by
  exact ⟨List.length_take_le maxResults _, fun h => List.take_of_length_le h⟩

/-- Claim C5, witness: with `max_results = 3` and exactly one candidate above
the threshold, exactly that one result is returned. -/
theorem truncation_cap_and_no_padding_witness :
    (formattedResults [("a", 0), ("b", 2)] (1 / 2) 3).length ≤ 3 ∧
    formattedResults [("a", 0), ("b", 2)] (1 / 2) 3 = filterAux ∅ (1 / 2) [("a", 0), ("b", 2)] :=
  ⟨(truncation_cap_and_no_padding [("a", 0), ("b", 2)] (1 / 2) 3).1,
   (truncation_cap_and_no_padding [("a", 0), ("b", 2)] (1 / 2) 3).2
     (by norm_num [filterAux, similarityScore])⟩

theorem filterAux_pairwise_descending {results : List (String × ℚ)}
    (h : results.Pairwise fun a b => a.2 ≤ b.2) (seen : Finset String) (minSim : ℚ) :
    (filterAux seen minSim results).Pairwise
      fun a b => b.relevance_score ≤ a.relevance_score := by
  induction results generalizing seen with
  | nil => simp [filterAux]
  | cons p rest ih =>
    rcases List.pairwise_cons.1 h with ⟨hhead, hrest⟩
    simp only [filterAux]
    split
    · exact ih hrest seen
    · split
      · refine List.pairwise_cons.2 ⟨fun y hy => ?_, ih hrest (insert p.1 seen)⟩
        rcases exists_source_of_mem_filterAux hy with ⟨q, hq, rfl⟩
        exact similarityScore_antitone (hhead q hq)
      · exact ih hrest seen

/-- Claim C4: given that the vector store returns its hits in ascending
distance order, the pipeline's returned list is sorted in descending order of
`relevance_score` — no result is followed by one with a strictly greater
score — because the order-preserving filter and the antitone conversion keep
the list sorted without an explicit re-sort. -/
theorem results_sorted_descending (store : Store)
    (hstore : ∀ docs q k, (store docs q k).Pairwise fun a b => a.2 ≤ b.2)
    (query : String) (messages : List Message) (max_results : Nat) (minSim : ℚ) :
    (semantic_search_with_rag store query messages max_results minSim).Pairwise
      fun a b => b.relevance_score ≤ a.relevance_score :=
  List.Pairwise.sublist (List.take_sublist _ _)
    (filterAux_pairwise_descending (hstore _ _ _) ∅ minSim)

/-- Claim C4, witness: a concrete store returning ascending-distance hits
yields a descending-by-score result list. -/
theorem results_sorted_descending_witness :
    (semantic_search_with_rag (fun _ _ _ => [("a", 0), ("b", 1)]) "q" [] 5 0).Pairwise
      fun a b => b.relevance_score ≤ a.relevance_score :=
  results_sorted_descending (fun _ _ _ => [("a", 0), ("b", 1)])
    (by intro docs q k; norm_num [List.pairwise_cons]) "q" [] 5 0

/-- Claim C6: a search over zero candidate messages returns the empty result
list (and, being a total function, raises no error): under the k-nearest
contract a store cannot return more hits than it indexed documents, so an
empty candidate set yields no hits and an empty output. -/
theorem empty_candidates_returns_empty (store : Store)
    (hstore : ∀ docs q k, (store docs q k).length ≤ docs.length)
    (query : String) (max_results : Nat) (minSim : ℚ) :
    semantic_search_with_rag store query [] max_results minSim = [] := by
  have h := hstore (dedupMessages []) query (max_results * 2)
  have hnil : store (dedupMessages []) query (max_results * 2) = [] := by
    have hd : dedupMessages [] = [] := rfl
    rw [hd] at h
    exact List.length_eq_zero.1 (Nat.le_zero.1 (by simpa using h))
  simp [semantic_search_with_rag, hnil, formattedResults, filterAux]

/-- Claim C6, witness: the concrete empty-store search over zero candidates
returns `[]`. -/
theorem empty_candidates_returns_empty_witness :
    semantic_search_with_rag (fun _ _ _ => []) "q" [] 10 0 = [] :=
  empty_candidates_returns_empty (fun _ _ _ => []) (by intro docs q k; simp) "q" 10 0

/-- Claim C7, counterexample: the `min_similarity_threshold` default in the
signature of `semantic_search_with_rag` is `0.7`, not `0.0`, and a search
invoked without an explicit threshold does filter candidates on similarity
grounds: a candidate at distance `1` (similarity `0.5`) is dropped by the
default search, while the same search with threshold `0` returns it. -/
theorem default_threshold_not_zero_counterexample :
    min_similarity_threshold_default ≠ 0 ∧
    semanticSearchDefault (fun _ _ _ => [("m1", 1)]) "q" [] 10 = [] ∧
    semantic_search_with_rag (fun _ _ _ => [("m1", 1)]) "q" [] 10 0 = [⟨"m1", 1 / 2⟩] := by
  refine ⟨by norm_num [min_similarity_threshold_default], ?_, ?_⟩ <;>
    norm_num [semanticSearchDefault, semantic_search_with_rag, formattedResults, filterAux,
      similarityScore, dedupMessages, dedupAux, min_similarity_threshold_default]

/-- Claim C7 (amended): the minimum-similarity parameter defaults to `0.7`
when the caller does not supply it, so a search invoked without an explicit
`min_similarity` returns only candidates whose similarity is at least `0.7`
(rather than filtering out no candidate). -/
theorem default_threshold_is_seven_tenths (store : Store) (query : String)
    (messages : List Message) (max_results : Nat) :
    min_similarity_threshold_default = 7 / 10 ∧
    ∀ r ∈ semanticSearchDefault store query messages max_results,
      7 / 10 ≤ r.relevance_score := by
  refine ⟨rfl, fun r hr => ?_⟩
  simp only [semanticSearchDefault, semantic_search_with_rag, formattedResults] at hr
  have h := le_score_of_mem_filterAux ((List.take_sublist _ _).subset hr)
  simpa [min_similarity_threshold_default] using h

/-- Claim C7 (amended), witness: a concrete default-threshold search returns
the hit at distance `0`, whose score is `1 ≥ 0.7`. -/
theorem default_threshold_is_seven_tenths_witness :
    (7 / 10 : ℚ) ≤ (⟨"m1", 1⟩ : ScoredResult).relevance_score :=
  (default_threshold_is_seven_tenths (fun _ _ _ => [("m1", 0)]) "q" [] 10).2 ⟨"m1", 1⟩
    (by norm_num [semanticSearchDefault, semantic_search_with_rag, formattedResults, filterAux,
      similarityScore, dedupMessages, dedupAux, min_similarity_threshold_default])

/-- Claim C10: for every store behavior — even one returning the same message
id more than once — the second deduplication pass inside the threshold filter
guarantees that the pipeline's returned `message_id`s are pairwise distinct. -/
theorem search_result_ids_nodup (store : Store) (query : String) (messages : List Message)
    (max_results : Nat) (minSim : ℚ) :
    ((semantic_search_with_rag store query messages max_results minSim).map
      ScoredResult.message_id).Nodup :=
  List.Nodup.sublist (List.Sublist.map _ (List.take_sublist _ _))
    (filterAux_ids_nodup ∅ minSim _)

/-! ### Lemmas about the redundancy clusterer -/

theorem mem_items_of_mem_clusterStep {embs : List (List ℚ)} {labels : List Nat}
    {n_clusters : Nat} {items : List Message} {m : Message}
    (h : m ∈ clusterStep embs labels n_clusters items) : m ∈ items := by
  simp only [clusterStep, List.mem_mergeSort] at h
  rcases List.mem_filterMap.1 h with ⟨cid, _, hf⟩
  split at hf
  · exact absurd hf (by simp)
  · exact List.get?_mem hf

theorem length_filterMap_eq_length_filter {α β : Type*} (f : α → Option β) (l : List α) :
    (l.filterMap f).length = (l.filter fun a => (f a).isSome).length := by
  induction l with
  | nil => rfl
  | cons x xs ih =>
    rw [List.filterMap_cons, List.filter_cons]
    cases hx : f x <;> simp [hx, ih]

theorem argminIdx_lt_length {l : List ℚ} (h : l ≠ []) : argminIdx l < l.length := by
  induction l with
  | nil => exact absurd rfl h
  | cons x xs ih =>
    cases xs with
    | nil => simp [argminIdx]
    | cons y rest =>
      rw [argminIdx]
      split
      · exact Nat.succ_lt_succ (ih (List.cons_ne_nil y rest))
      · simp

theorem idxs_ne_nil_iff {labels : List Nat} {cid : Nat} :
    ((List.range labels.length).filter fun i => labels.getD i 0 == cid) ≠ [] ↔ cid ∈ labels := by
  rw [ne_eq, List.filter_eq_nil_iff]
  push_neg
  constructor
  · rintro ⟨i, hi, hp⟩
    rw [List.mem_range] at hi
    have hval : labels.getD i 0 = cid := by simpa using hp
    rw [List.getD_eq_getElem _ _ hi] at hval
    exact hval ▸ List.getElem_mem hi
  · intro hmem
    rcases List.mem_iff_getElem.1 hmem with ⟨i, hi, hval⟩
    refine ⟨i, List.mem_range.2 hi, ?_⟩
    rw [List.getD_eq_getElem _ _ hi, hval]
    simp

theorem getD_argmin_mem {idxs : List Nat} (hne : idxs ≠ []) (g : Nat → ℚ) :
    idxs.getD (argminIdx (idxs.map g)) 0 ∈ idxs := by
  have hlt : argminIdx (idxs.map g) < idxs.length := by
    rw [← List.length_map idxs g]
    exact argminIdx_lt_length (by simpa using hne)
  rw [List.getD_eq_getElem _ _ hlt]
  exact List.getElem_mem hlt

theorem get?_isSome_of_argmin {idxs : List Nat} {items : List Message} (hne : idxs ≠ [])
    (g : Nat → ℚ) (hsub : ∀ i ∈ idxs, i < items.length) :
    (items.get? (idxs.getD (argminIdx (idxs.map g)) 0)).isSome = true := by
  rw [List.get?_eq_get (hsub _ (getD_argmin_mem hne g))]
  rfl

theorem clusterStep_length {embs : List (List ℚ)} {labels : List Nat} {n_clusters : Nat}
    {items : List Message} (hlen : labels.length = items.length) :
    (clusterStep embs labels n_clusters items).length =
      ((List.range n_clusters).filter fun cid => decide (cid ∈ labels)).length := by
  simp only [clusterStep, List.length_mergeSort]
  rw [length_filterMap_eq_length_filter]
  congr 1
  apply List.filter_congr
  intro cid _
  dsimp only
  by_cases hmem : cid ∈ labels
  · have hne : ((List.range labels.length).filter fun i => labels.getD i 0 == cid) ≠ [] :=
      idxs_ne_nil_iff.2 hmem
    rw [if_neg (by simpa [List.isEmpty_iff] using hne)]
    have hsub : ∀ i ∈ (List.range labels.length).filter fun i => labels.getD i 0 == cid,
        i < items.length := fun i hi =>
      hlen ▸ List.mem_range.1 (List.mem_filter.1 hi).1
    rw [get?_isSome_of_argmin hne _ hsub]
    simp [hmem]
  · have hnil : ((List.range labels.length).filter fun i => labels.getD i 0 == cid) = [] :=
      not_not.1 fun hne => hmem (idxs_ne_nil_iff.1 hne)
    rw [if_pos (List.isEmpty_iff.2 hnil)]
    simp [hmem]

/-- Claim C8, counterexample: the size check of lines 292-294 runs before the
trivial filter, so when the whole input is already at or below `target_count`
the function returns it unchanged, trivial items included: a single `"ok"`
message with `target_count = 25` is returned as-is, even though it is
trivial. -/
theorem trivial_item_in_output_counterexample :
    isTrivial ⟨"m1", "ok", "s", none, 0, "c"⟩ = true ∧
    filter_redundant_messages (fun _ => []) (fun _ _ => [])
        [⟨"m1", "ok", "s", none, 0, "c"⟩] 25 =
      [⟨"m1", "ok", "s", none, 0, "c"⟩] :=
  ⟨by decide, by decide⟩

/-- Claim C8 (amended): when the input count is at most `target_count` the
function returns the input unchanged — trivial items included — because the
size check precedes the trivial filter; only when the input count exceeds
`target_count` are trivial items stripped before any size comparison or
embedding call, and then the output never contains a trivial item (whether or
not the clustering branch runs). -/
theorem trivial_filter_after_size_check (embed : List String → List (List ℚ))
    (fit_predict : List (List ℚ) → Nat → List Nat) (messages : List Message)
    (target_count : Nat) :
    (messages.length ≤ target_count →
      filter_redundant_messages embed fit_predict messages target_count = messages) ∧
    (target_count < messages.length →
      ∀ m ∈ filter_redundant_messages embed fit_predict messages target_count,
        isTrivial m = false) := by
  constructor
  · intro h
    simp [filter_redundant_messages, h]
  · intro h m hm
    rw [filter_redundant_messages, if_neg (Nat.not_le.2 h)] at hm
    dsimp only at hm
    split at hm
    · exact (Bool.not_eq_true' _) ▸ (List.mem_filter.1 hm).2
    · exact (Bool.not_eq_true' _) ▸
        (List.mem_filter.1 (mem_items_of_mem_clusterStep hm)).2

/-- Claim C8 (amended), witness: a single non-trivial message below the
target is returned unchanged, and on an input of three messages with
`target_count = 2` the returned message `"the deadline is Monday"` is
non-trivial. -/
theorem trivial_filter_after_size_check_witness :
    filter_redundant_messages (fun _ => []) (fun _ _ => [])
        [⟨"m1", "hello everyone!", "s", none, 0, "c"⟩] 25 =
      [⟨"m1", "hello everyone!", "s", none, 0, "c"⟩] ∧
    isTrivial ⟨"m2", "the deadline is Monday", "s", none, 1, "c"⟩ = false :=
  ⟨(trivial_filter_after_size_check (fun _ => []) (fun _ _ => [])
      [⟨"m1", "hello everyone!", "s", none, 0, "c"⟩] 25).1 (by decide),
   (trivial_filter_after_size_check (fun _ => []) (fun _ _ => [])
      [⟨"m0", "ok", "s", none, 0, "c"⟩, ⟨"m2", "the deadline is Monday", "s", none, 1, "c"⟩,
        ⟨"m3", "let us get lunch today", "s", none, 2, "c"⟩] 2).2 (by decide)
      ⟨"m2", "the deadline is Monday", "s", none, 1, "c"⟩ (by decide)⟩

/-- Claim C9, counterexample: with 51 non-trivial messages remaining and
`target_count = 25`, the code requests
`max(25, int(51 * 0.5)) = max(25, 25) = 25` clusters, while the claim's
formula `max(target_count, round(0.5 * remaining_count)) = max(25, round(25.5))`
gives `26` — the code truncates where the claim rounds. -/
theorem cluster_count_formula_counterexample :
    nClustersRequested 51 25 = 25 ∧ nClustersClaimed 51 25 = 26 ∧
    nClustersRequested 51 25 ≠ nClustersClaimed 51 25 := by
  decide

/-- Claim C9 (amended): when the clustering branch runs (more than
`target_count` non-trivial items remain), the clusterer requests
`n_clusters = max(target_count, ⌊0.5 * remaining_count⌋)` clusters (truncated,
not rounded, so never below `⌊50%⌋` of the pre-clustering count), and —
provided the external clusterer returns one label per item — the returned
representative list contains exactly one representative per non-empty cluster,
hence at most `n_clusters` items. -/
theorem cluster_request_count_and_reps (embed : List String → List (List ℚ))
    (fit_predict : List (List ℚ) → Nat → List Nat) (messages : List Message)
    (target_count : Nat) (non_trivial : List Message) (n_clusters : Nat) (labels : List Nat)
    (hnt : non_trivial = messages.filter fun m => !(isTrivial m))
    (hbranch : target_count < non_trivial.length)
    (hn : n_clusters = nClustersRequested non_trivial.length target_count)
    (hlabels : labels = fit_predict (embed (non_trivial.map Message.text)) n_clusters)
    (hlen : labels.length = non_trivial.length) :
    n_clusters = max target_count (non_trivial.length / 2) ∧
    non_trivial.length / 2 ≤ n_clusters ∧
    filter_redundant_messages embed fit_predict messages target_count =
      clusterStep (embed (non_trivial.map Message.text)) labels n_clusters non_trivial ∧
    (filter_redundant_messages embed fit_predict messages target_count).length =
      ((List.range n_clusters).filter fun cid => decide (cid ∈ labels)).length ∧
    (filter_redundant_messages embed fit_predict messages target_count).length ≤
      n_clusters := by
  have hmlen : target_count < messages.length :=
    lt_of_lt_of_le hbranch (hnt ▸ List.length_filter_le _ _)
  have heq : filter_redundant_messages embed fit_predict messages target_count =
      clusterStep (embed (non_trivial.map Message.text)) labels n_clusters non_trivial := by
    rw [filter_redundant_messages, if_neg (Nat.not_le.2 hmlen)]
    dsimp only
    rw [← hnt, if_neg (Nat.not_le.2 hbranch), ← hn, ← hlabels]
  refine ⟨hn, hn ▸ le_max_right _ _, heq, ?_, ?_⟩
  · rw [heq]
    exact clusterStep_length hlen
  · rw [heq, clusterStep_length hlen]
    calc ((List.range n_clusters).filter fun cid => decide (cid ∈ labels)).length ≤
        (List.range n_clusters).length := List.length_filter_le _ _
    _ = n_clusters := List.length_range n_clusters

/-- Claim C9 (amended), witness: two non-trivial messages with
`target_count = 1` enter the clustering branch with `n_clusters = 1`, and the
output has at most one representative. -/
theorem cluster_request_count_and_reps_witness :
    (filter_redundant_messages (fun _ => [[], []]) (fun _ _ => [0, 0])
      [⟨"a", "hello hello world", "s", none, 0, "c"⟩,
        ⟨"b", "goodbye goodbye world", "s", none, 1, "c"⟩] 1).length ≤ 1 :=
  (cluster_request_count_and_reps (fun _ => [[], []]) (fun _ _ => [0, 0])
    [⟨"a", "hello hello world", "s", none, 0, "c"⟩,
      ⟨"b", "goodbye goodbye world", "s", none, 1, "c"⟩] 1
    [⟨"a", "hello hello world", "s", none, 0, "c"⟩,
      ⟨"b", "goodbye goodbye world", "s", none, 1, "c"⟩] 1 [0, 0]
    (by decide) (by decide) (by decide) rfl (by decide)).2.2.2.2

end Synapse
